import Mathlib

/-!
Verification of the zlint command-line front end: the severity aggregation
table (`resultsTable.newRT`), the flag-driven registry filtering
(`setLints`, `trimmedList`), and three lint rules
(`subject_postal_without_org`, `ev_valid_time_too_long`,
`sub_ca_name_constraints_not_critical`), shallowly embedded in Lean.
Go maps are modelled as association lists (first binding wins), Go slices
as lists, and fallible or aborting paths as `Option`/`Except`.
-/

/-! ## Association-list model of Go maps -/

/-- Lookup in an association list modelling a Go map: the first binding of a
key is its value, `none` when the key is absent. -/
def mapFind [DecidableEq α] (m : List (α × β)) (k : α) : Option β :=
  match m with
  | [] => none
  | p :: rest => if p.1 = k then some p.2 else mapFind rest k

/-- Lookup with a default, modelling a Go map read `m[k]` whose zero value
is `d`. -/
def mapGetD [DecidableEq α] (m : List (α × β)) (k : α) (d : β) : β :=
  (mapFind m k).getD d

/-- Key-membership test for the association-list map model. -/
def mapHas [DecidableEq α] (m : List (α × β)) (k : α) : Bool :=
  (mapFind m k).isSome

/-- Go map assignment `m[k] = v`: replaces the binding when the key is
present, appends a fresh binding otherwise. -/
def mapSet [DecidableEq α] (m : List (α × β)) (k : α) (v : β) : List (α × β) :=
  if mapHas m k then m.map (fun p => if p.1 = k then (p.1, v) else p)
  else m ++ [(k, v)]

/-- Go map read-modify-write `m[k] = f(m[k])` where a missing key reads as
the zero value `d` (this models both `m[k]++` and `m[k] = append(m[k], x)`). -/
def mapUpd [DecidableEq α] (m : List (α × β)) (k : α) (d : β) (f : β → β) :
    List (α × β) :=
  if mapHas m k then m.map (fun p => if p.1 = k then (p.1, f p.2) else p)
  else m ++ [(k, f d)]

/-! ## Severity enumeration

Modelled from the spec: `lint.LintStatus` is "an ordered enumeration ...
Ordering is total and significant: aggregation and threshold filtering
compare severities numerically", with Pass below Notice, Warn, Error and
Fatal (glossary: "Pass, Notice, Warn, Error, Fatal"); the code of the
`lint` package itself is not under src/. -/

/-- Modelled from the spec: the ordered severity enumeration of the `lint`
package (not under src/). -/
inductive LintStatus where
  | Reserved
  | Unknown
  | NA
  | Pass
  | Notice
  | Warn
  | Error
  | Fatal
  deriving DecidableEq, Repr

/-- Numeric value of a severity; the comparisons `<`/`<=` that the Go code
performs on `lint.LintStatus` values compare these numbers. -/
def LintStatus.toInt : LintStatus → Int
  | .Reserved => 0
  | .Unknown => 1
  | .NA => 2
  | .Pass => 3
  | .Notice => 4
  | .Warn => 5
  | .Error => 6
  | .Fatal => 7

/-- Go comparison `a < b` on `lint.LintStatus`. -/
def statusLt (a b : LintStatus) : Bool := decide (a.toInt < b.toInt)

/-- Go comparison `a <= b` on `lint.LintStatus`. -/
def statusLe (a b : LintStatus) : Bool := decide (a.toInt ≤ b.toInt)

/-- Modelled from the spec: the values of the `lint.StatusLabelToLintStatus`
map (not under src/), which the aggregation step iterates; per the spec it
covers "the full enumeration (not just observed values)".  Go map iteration
order is unspecified; the model fixes one order, and every property proved
about the resulting table is insensitive to this choice because the keys of
the maps built from it are what matter. -/
def statusLabelToLintStatus : List LintStatus :=
  [.Reserved, .Unknown, .NA, .Pass, .Notice, .Warn, .Error, .Fatal]

/-- Modelled from the spec: the per-rule outcome record of the `lint`
package (not under src/); `newRT` reads only its `Status` field. -/
structure LintResult where
  Status : LintStatus
  deriving DecidableEq, Repr

/-- Modelled from the spec: a Result Set is "a mapping from rule name to
Result ... insertion order irrelevant"; the association list fixes one
in-memory iteration order of the Go map `Results`. -/
structure ResultSet where
  Results : List (String × LintResult)
  deriving DecidableEq, Repr

/-! ## resultsTable and newRT (src/unnamed/part_000, lines 55-60 and 231-268) -/

/-- The `resultsTable` struct of the CLI. -/
structure resultsTable where
  resultCount : List (LintStatus × Nat)
  resultDetails : List (LintStatus × List String)
  lintLevelsAboveThreshold : List (Int × LintStatus)
  sortedLevels : List Int
  deriving DecidableEq, Repr

/-- The zero value `resultsTable{}` that `outputSummary` invokes `newRT` on. -/
def emptyRT : resultsTable :=
  { resultCount := [], resultDetails := [], lintLevelsAboveThreshold := [],
    sortedLevels := [] }

/-- First loop of `newRT`: collect into `lintLevelsAboveThreshold` every
enumeration value strictly above the threshold (`if i <= threshold continue`),
keyed by its numeric value. -/
def levelsLoop (threshold : LintStatus) (init : List (Int × LintStatus)) :
    List (Int × LintStatus) :=
  statusLabelToLintStatus.foldl
    (fun acc i => if statusLe i threshold then acc else mapSet acc i.toInt i)
    init

/-- Second loop of `newRT`: set every collected level's count to 0 so that
all levels are displayed in the summary table. -/
def zeroLoop (levels : List (Int × LintStatus)) (init : List (LintStatus × Nat)) :
    List (LintStatus × Nat) :=
  levels.foldl (fun acc p => mapSet acc p.2 0) init

/-- Body of the counting loop of `newRT`: a result whose status strictly
exceeds the threshold increments its severity bucket and, under
`longSummary`, appends the rule name to that severity's detail list. -/
def countStep (threshold : LintStatus) (longSummary : Bool)
    (acc : List (LintStatus × Nat) × List (LintStatus × List String))
    (p : String × LintResult) :
    List (LintStatus × Nat) × List (LintStatus × List String) :=
  if statusLt threshold p.2.Status then
    (mapUpd acc.1 p.2.Status 0 (fun n => n + 1),
     if longSummary then mapUpd acc.2 p.2.Status [] (fun l => l ++ [p.1])
     else acc.2)
  else acc

/-- Third loop of `newRT`: fold the counting step over the result set. -/
def countLoop (threshold : LintStatus) (longSummary : Bool)
    (results : List (String × LintResult))
    (acc : List (LintStatus × Nat) × List (LintStatus × List String)) :
    List (LintStatus × Nat) × List (LintStatus × List String) :=
  results.foldl (countStep threshold longSummary) acc

/-- The `resultsTable.newRT` method (src/unnamed/part_000 lines 231-268):
rebuilds the three maps, counts results strictly above the threshold, and
sorts the keys of `resultCount` (appended to the receiver's `sortedLevels`,
which is empty at the only call site) into `sortedLevels`; `sort.Ints` is
modelled by insertion sort on `Int`. -/
def resultsTable.newRT (r : resultsTable) (threshold : LintStatus)
    (results : ResultSet) (longSummary : Bool) : resultsTable :=
  let levels := levelsLoop threshold []
  let rc0 := zeroLoop levels []
  let cd := countLoop threshold longSummary results.Results (rc0, [])
  { resultCount := cd.1
    resultDetails := cd.2
    lintLevelsAboveThreshold := levels
    sortedLevels :=
      List.insertionSort (fun a b => a ≤ b)
        (r.sortedLevels ++ cd.1.map (fun p => p.1.toInt)) }

/-- Number of results in a result-set list carrying exactly status `s`. -/
def countStatus (results : List (String × LintResult)) (s : LintStatus) : Nat :=
  (results.filter (fun p => decide (p.2.Status = s))).length

/-- Names of the results carrying exactly status `s`, in list order. -/
def namesWithStatus (results : List (String × LintResult)) (s : LintStatus) :
    List String :=
  (results.filter (fun p => decide (p.2.Status = s))).map Prod.fst

/-! ## Lemmas about the association-list map model -/

theorem mapFind_append_of_none [DecidableEq α] {m₁ : List (α × β)} {k : α}
    (m₂ : List (α × β)) (h : mapFind m₁ k = none) :
    mapFind (m₁ ++ m₂) k = mapFind m₂ k := by
  induction m₁ with
  | nil => rfl
  | cons p rest ih =>
    by_cases hp : p.1 = k
    · simp [mapFind, hp] at h
    · simp only [mapFind, hp, if_false, List.cons_append] at h ⊢
      exact ih h

theorem mapFind_append_of_some [DecidableEq α] {m₁ : List (α × β)} {k : α} {v : β}
    (m₂ : List (α × β)) (h : mapFind m₁ k = some v) :
    mapFind (m₁ ++ m₂) k = some v := by
  induction m₁ with
  | nil => simp [mapFind] at h
  | cons p rest ih =>
    by_cases hp : p.1 = k
    · simp only [mapFind, hp, if_true] at h ⊢
      simpa using h
    · simp only [mapFind, hp, if_false, List.cons_append] at h ⊢
      exact ih h

theorem mapFind_mapValue [DecidableEq α] (m : List (α × β)) (k : α) (f : β → β)
    (s : α) :
    mapFind (m.map (fun p => if p.1 = k then (p.1, f p.2) else p)) s =
      if s = k then (mapFind m s).map f else mapFind m s := by
  induction m with
  | nil => by_cases hs : s = k <;> simp [mapFind, hs]
  | cons p rest ih =>
    by_cases hsk : s = k
    · subst hsk
      by_cases hp : p.1 = s <;> simp [mapFind, hp, ih]
    · by_cases hp : p.1 = s
      · have hpk : ¬ p.1 = k := by rw [hp]; exact hsk
        simp [mapFind, hp, hpk, hsk]
      · have hks : ¬ k = s := fun hh => hsk hh.symm
        by_cases hpk : p.1 = k <;> simp [mapFind, hp, hpk, hsk, hks, ih]

theorem mapFind_mapUpd [DecidableEq α] (m : List (α × β)) (k : α) (d : β)
    (f : β → β) (s : α) :
    mapFind (mapUpd m k d f) s =
      if s = k then some (f (mapGetD m k d)) else mapFind m s := by
  unfold mapUpd
  by_cases h : mapHas m k
  · rw [if_pos h, mapFind_mapValue]
    by_cases hsk : s = k
    · subst hsk
      unfold mapHas at h
      cases hf : mapFind m s with
      | none => rw [hf] at h; simp at h
      | some v => simp [hf, mapGetD]
    · simp [hsk]
  · rw [if_neg h]
    unfold mapHas at h
    have hnone : mapFind m k = none := by
      cases hf : mapFind m k with
      | none => rfl
      | some v => rw [hf] at h; simp at h
    by_cases hsk : s = k
    · subst hsk
      rw [mapFind_append_of_none _ hnone]
      simp [mapFind, mapGetD, hnone]
    · cases hf : mapFind m s with
      | none =>
        rw [mapFind_append_of_none _ hf]
        have : ¬ k = s := fun hh => hsk hh.symm
        simp [mapFind, this, hsk]
      | some v => rw [mapFind_append_of_some _ hf]; simp [hsk, hf]

theorem mapSet_eq_mapUpd [DecidableEq α] (m : List (α × β)) (k : α) (v : β) :
    mapSet m k v = mapUpd m k v (fun _ => v) := rfl

theorem mapFind_mapSet [DecidableEq α] (m : List (α × β)) (k : α) (v : β) (s : α) :
    mapFind (mapSet m k v) s = if s = k then some v else mapFind m s := by
  rw [mapSet_eq_mapUpd, mapFind_mapUpd]

theorem mapGetD_mapUpd [DecidableEq α] (m : List (α × β)) (k : α) (d : β)
    (f : β → β) (s : α) :
    mapGetD (mapUpd m k d f) s d =
      if s = k then f (mapGetD m k d) else mapGetD m s d := by
  unfold mapGetD
  rw [mapFind_mapUpd]
  by_cases hsk : s = k <;> simp [hsk, mapGetD]

theorem mapHas_mapUpd [DecidableEq α] (m : List (α × β)) (k : α) (d : β)
    (f : β → β) (s : α) :
    mapHas (mapUpd m k d f) s = (if s = k then true else mapHas m s) := by
  unfold mapHas
  rw [mapFind_mapUpd]
  by_cases hsk : s = k <;> simp [hsk]

theorem keys_mapUpd_of_has [DecidableEq α] (m : List (α × β)) (k : α) (d : β)
    (f : β → β) (h : mapHas m k = true) :
    (mapUpd m k d f).map Prod.fst = m.map Prod.fst := by
  unfold mapUpd
  rw [if_pos h, List.map_map]
  refine List.map_congr_left ?_
  intro p _
  by_cases hp : p.1 = k <;> simp [hp]

/-! ## Characterization of the newRT loops -/

theorem countLoop_nil (t : LintStatus) (long : Bool) (acc) :
    countLoop t long [] acc = acc := rfl

theorem countLoop_cons (t : LintStatus) (long : Bool) (p : String × LintResult)
    (rest : List (String × LintResult)) (acc) :
    countLoop t long (p :: rest) acc =
      countLoop t long rest (countStep t long acc p) := rfl

theorem countStatus_cons (p : String × LintResult)
    (results : List (String × LintResult)) (s : LintStatus) :
    countStatus (p :: results) s =
      if p.2.Status = s then countStatus results s + 1
      else countStatus results s := by
  by_cases h : p.2.Status = s <;>
    simp [countStatus, List.filter_cons, h]

theorem namesWithStatus_cons (p : String × LintResult)
    (results : List (String × LintResult)) (s : LintStatus) :
    namesWithStatus (p :: results) s =
      if p.2.Status = s then p.1 :: namesWithStatus results s
      else namesWithStatus results s := by
  by_cases h : p.2.Status = s <;>
    simp [namesWithStatus, List.filter_cons, h]

theorem countLoop_find (t : LintStatus) (long : Bool)
    (results : List (String × LintResult)) :
    ∀ (rc : List (LintStatus × Nat)) (rd : List (LintStatus × List String))
      (s : LintStatus),
      (∀ u, statusLt t u = true → mapHas rc u = true) →
      mapFind (countLoop t long results (rc, rd)).1 s =
        if statusLt t s then
          (mapFind rc s).map (fun n => n + countStatus results s)
        else mapFind rc s := by
  induction results with
  | nil =>
    intro rc rd s _
    rw [countLoop_nil]
    by_cases hs : statusLt t s
    · rw [if_pos hs]
      show mapFind rc s = (mapFind rc s).map (fun n => n + countStatus [] s)
      cases hf : mapFind rc s <;> simp [countStatus]
    · rw [if_neg hs]
  | cons p rest ih =>
    intro rc rd s hk
    rw [countLoop_cons]
    unfold countStep
    by_cases hp : statusLt t p.2.Status
    · rw [if_pos hp]
      have hk' : ∀ u, statusLt t u = true →
          mapHas (mapUpd rc p.2.Status 0 (fun n => n + 1)) u = true := by
        intro u hu
        rw [mapHas_mapUpd]
        by_cases huk : u = p.2.Status
        · simp [huk]
        · simp [huk, hk u hu]
      rw [ih _ _ s hk']
      by_cases hs : statusLt t s
      · rw [if_pos hs, if_pos hs, mapFind_mapUpd]
        by_cases hsp : s = p.2.Status
        · rw [if_pos hsp]
          have hhas := hk s hs
          obtain ⟨v, hv⟩ : ∃ v, mapFind rc s = some v := by
            unfold mapHas at hhas
            cases hf : mapFind rc s with
            | none => rw [hf] at hhas; simp at hhas
            | some v => exact ⟨v, rfl⟩
          have hgd : mapGetD rc p.2.Status 0 = v := by
            rw [← hsp]; unfold mapGetD; rw [hv]; rfl
          rw [hgd, hv, countStatus_cons, if_pos hsp.symm]
          simp only [Option.map_some']
          congr 1
          omega
        · rw [if_neg hsp, countStatus_cons]
          have : ¬ p.2.Status = s := fun hh => hsp hh.symm
          rw [if_neg this]
      · rw [if_neg hs, if_neg hs, mapFind_mapUpd]
        have hsp : ¬ s = p.2.Status := by
          intro hh
          rw [hh] at hs
          exact hs hp
        rw [if_neg hsp]
    · rw [if_neg hp]
      rw [ih _ _ s hk]
      by_cases hs : statusLt t s
      · rw [if_pos hs, if_pos hs, countStatus_cons]
        have : ¬ p.2.Status = s := by
          intro hh
          rw [hh] at hp
          exact hp hs
        rw [if_neg this]
      · rw [if_neg hs, if_neg hs]

theorem countLoop_keys (t : LintStatus) (long : Bool)
    (results : List (String × LintResult)) :
    ∀ (rc : List (LintStatus × Nat)) (rd : List (LintStatus × List String)),
      (∀ u, statusLt t u = true → mapHas rc u = true) →
      (countLoop t long results (rc, rd)).1.map Prod.fst = rc.map Prod.fst := by
  induction results with
  | nil => intro rc rd _; rfl
  | cons p rest ih =>
    intro rc rd hk
    rw [countLoop_cons]
    unfold countStep
    by_cases hp : statusLt t p.2.Status
    · rw [if_pos hp]
      have hk' : ∀ u, statusLt t u = true →
          mapHas (mapUpd rc p.2.Status 0 (fun n => n + 1)) u = true := by
        intro u hu
        rw [mapHas_mapUpd]
        by_cases huk : u = p.2.Status
        · simp [huk]
        · simp [huk, hk u hu]
      rw [ih _ _ hk']
      exact keys_mapUpd_of_has rc p.2.Status 0 (fun n => n + 1) (hk _ hp)
    · rw [if_neg hp]
      exact ih _ _ hk

theorem countLoop_details (t : LintStatus) (long : Bool)
    (results : List (String × LintResult)) :
    ∀ (rc : List (LintStatus × Nat)) (rd : List (LintStatus × List String))
      (s : LintStatus),
      mapGetD (countLoop t long results (rc, rd)).2 s [] =
        mapGetD rd s [] ++
          (if long && statusLt t s then namesWithStatus results s else []) := by
  induction results with
  | nil =>
    intro rc rd s
    by_cases h : long && statusLt t s <;> simp [countLoop, namesWithStatus, h]
  | cons p rest ih =>
    intro rc rd s
    rw [countLoop_cons]
    unfold countStep
    by_cases hp : statusLt t p.2.Status
    · rw [if_pos hp]
      cases hl : long with
      | false =>
        subst hl
        simp only [Bool.false_and, if_false]
        rw [ih _ _ s]
        simp [namesWithStatus]
      | true =>
        subst hl
        simp only [if_true, Bool.true_and]
        rw [ih _ _ s]
        simp only [Bool.true_and]
        rw [mapGetD_mapUpd]
        by_cases hs : statusLt t s
        · rw [if_pos hs, if_pos hs, namesWithStatus_cons]
          by_cases hsp : s = p.2.Status
          · subst hsp
            rw [if_pos rfl, if_pos rfl, List.append_assoc, List.singleton_append]
          · have : ¬ p.2.Status = s := fun hh => hsp hh.symm
            rw [if_neg hsp, if_neg this]
        · rw [if_neg hs, if_neg hs]
          have hsp : ¬ s = p.2.Status := by
            intro hh
            rw [hh] at hs
            exact hs hp
          rw [if_neg hsp]
    · rw [if_neg hp]
      rw [ih _ _ s]
      by_cases hs : long && statusLt t s
      · rw [if_pos hs, if_pos hs, namesWithStatus_cons]
        have : ¬ p.2.Status = s := by
          intro hh
          rw [hh] at hp
          exact hp (Bool.and_elim_right hs)
        rw [if_neg this]
      · rw [if_neg hs, if_neg hs]

theorem statusLabel_complete (s : LintStatus) : s ∈ statusLabelToLintStatus := by
  cases s <;> decide

theorem zeroLoop_find (t s : LintStatus) :
    mapFind (zeroLoop (levelsLoop t []) []) s =
      if statusLt t s then some 0 else none := by
  cases t <;> cases s <;> decide

theorem zeroLoop_keys (t : LintStatus) :
    (zeroLoop (levelsLoop t []) []).map Prod.fst =
      statusLabelToLintStatus.filter (fun s => statusLt t s) := by
  cases t <;> decide

/-! ## newRT field characterizations -/

theorem newRT_resultCount (t : LintStatus) (results : ResultSet) (long : Bool) :
    (emptyRT.newRT t results long).resultCount =
      (countLoop t long results.Results (zeroLoop (levelsLoop t []) [], [])).1 :=
  rfl

theorem newRT_resultDetails (t : LintStatus) (results : ResultSet) (long : Bool) :
    (emptyRT.newRT t results long).resultDetails =
      (countLoop t long results.Results (zeroLoop (levelsLoop t []) [], [])).2 :=
  rfl

theorem newRT_sortedLevels (t : LintStatus) (results : ResultSet) (long : Bool) :
    (emptyRT.newRT t results long).sortedLevels =
      List.insertionSort (fun a b => a ≤ b)
        ([] ++ (countLoop t long results.Results
            (zeroLoop (levelsLoop t []) [], [])).1.map (fun p => p.1.toInt)) :=
  rfl

theorem zeroLoop_has (t : LintStatus) :
    ∀ u, statusLt t u = true → mapHas (zeroLoop (levelsLoop t []) []) u = true := by
  intro u hu
  unfold mapHas
  rw [zeroLoop_find, if_pos hu]
  rfl

theorem newRT_resultCount_keys (t : LintStatus) (results : ResultSet)
    (long : Bool) :
    (emptyRT.newRT t results long).resultCount.map Prod.fst =
      statusLabelToLintStatus.filter (fun s => statusLt t s) := by
  rw [newRT_resultCount,
    countLoop_keys t long results.Results _ [] (zeroLoop_has t), zeroLoop_keys]

theorem sortedLevels_closed (t : LintStatus) :
    List.insertionSort (fun a b => a ≤ b)
        ((statusLabelToLintStatus.filter (fun s => statusLt t s)).map
          LintStatus.toInt) =
      (statusLabelToLintStatus.filter (fun s => statusLt t s)).map
        LintStatus.toInt := by
  cases t <;> decide

theorem newRT_sortedLevels_eq (t : LintStatus) (results : ResultSet)
    (long : Bool) :
    (emptyRT.newRT t results long).sortedLevels =
      List.insertionSort (fun a b => a ≤ b)
        ((statusLabelToLintStatus.filter (fun s => statusLt t s)).map
          LintStatus.toInt) := by
  rw [newRT_sortedLevels, List.nil_append]
  have h1 : (countLoop t long results.Results
        (zeroLoop (levelsLoop t []) [], [])).1.map (fun p => p.1.toInt) =
      ((emptyRT.newRT t results long).resultCount.map Prod.fst).map
        LintStatus.toInt := by
    rw [newRT_resultCount, List.map_map]
    rfl
  rw [h1, newRT_resultCount_keys]

/-- C1: for every result set and threshold T, the table built by
`resultsTable.newRT` has a bucket for a severity s exactly when s strictly
exceeds T, and that bucket's count equals the number of results whose status
is exactly s; a severity at or below T (for example Pass when T is Pass) has
no bucket, so such results are counted nowhere. -/
theorem spec_C1_newRT_buckets (threshold : LintStatus) (results : ResultSet)
    (longSummary : Bool) (s : LintStatus) :
    (statusLt threshold s = true →
      mapFind (emptyRT.newRT threshold results longSummary).resultCount s =
        some (countStatus results.Results s))
    ∧ (statusLt threshold s = false →
      mapFind (emptyRT.newRT threshold results longSummary).resultCount s =
        none) := by
  have hfind := countLoop_find threshold longSummary results.Results
    (zeroLoop (levelsLoop threshold []) []) [] s (zeroLoop_has threshold)
  rw [newRT_resultCount]
  constructor
  · intro hs
    rw [hfind, if_pos hs, zeroLoop_find, if_pos hs]
    simp
  · intro hs
    rw [hfind, if_neg (by simp [hs]), zeroLoop_find, if_neg (by simp [hs])]

theorem spec_C1_newRT_buckets_witness :
    statusLt .Pass .Error = true
    ∧ mapFind (emptyRT.newRT .Pass
          ⟨[("a", ⟨.Error⟩), ("b", ⟨.Warn⟩), ("c", ⟨.Error⟩), ("d", ⟨.Pass⟩)]⟩
          false).resultCount .Error =
        some (countStatus
          [("a", ⟨.Error⟩), ("b", ⟨.Warn⟩), ("c", ⟨.Error⟩), ("d", ⟨.Pass⟩)]
          .Error) :=
  ⟨by decide,
   (spec_C1_newRT_buckets .Pass
      ⟨[("a", ⟨.Error⟩), ("b", ⟨.Warn⟩), ("c", ⟨.Error⟩), ("d", ⟨.Pass⟩)]⟩
      false .Error).1 (by decide)⟩

/-- C3: for every result set and threshold T, `sortedLevels` of the table
built by `resultsTable.newRT` lists exactly the numeric values of the
severity levels strictly above T, each once, in ascending order, regardless
of the result set (so zero-count levels are included); no level at or below
T appears. -/
theorem spec_C3_newRT_sortedLevels (threshold : LintStatus)
    (results : ResultSet) (longSummary : Bool) :
    ((emptyRT.newRT threshold results longSummary).sortedLevels =
        (statusLabelToLintStatus.filter (fun s => statusLt threshold s)).map
          LintStatus.toInt)
    ∧ (emptyRT.newRT threshold results longSummary).sortedLevels.Nodup
    ∧ (emptyRT.newRT threshold results longSummary).sortedLevels.Sorted
        (fun a b => a ≤ b)
    ∧ ∀ lv : Int,
        lv ∈ (emptyRT.newRT threshold results longSummary).sortedLevels ↔
          ∃ s : LintStatus, statusLt threshold s = true ∧ s.toInt = lv := by
  have he : (emptyRT.newRT threshold results longSummary).sortedLevels =
      (statusLabelToLintStatus.filter (fun s => statusLt threshold s)).map
        LintStatus.toInt := by
    rw [newRT_sortedLevels_eq, sortedLevels_closed]
  refine ⟨he, ?_, ?_, ?_⟩
  · rw [he]
    cases threshold <;> decide
  · rw [he]
    cases threshold <;> decide
  · intro lv
    rw [he]
    simp only [List.mem_map, List.mem_filter]
    constructor
    · rintro ⟨s, ⟨_, hlt⟩, htoInt⟩
      exact ⟨s, hlt, htoInt⟩
    · rintro ⟨s, hlt, htoInt⟩
      exact ⟨s, ⟨statusLabel_complete s, hlt⟩, htoInt⟩

theorem spec_C3_newRT_sortedLevels_witness :
    (emptyRT.newRT .Pass ⟨[("a", ⟨.Error⟩)]⟩ false).sortedLevels =
      (statusLabelToLintStatus.filter (fun s => statusLt .Pass s)).map
        LintStatus.toInt :=
  (spec_C3_newRT_sortedLevels .Pass ⟨[("a", ⟨.Error⟩)]⟩ false).1

/-! ## Result-set permutation invariance (C2) -/

theorem countStatus_perm {r1 r2 : List (String × LintResult)} (h : r1.Perm r2)
    (s : LintStatus) : countStatus r1 s = countStatus r2 s := by
  unfold countStatus
  exact (h.filter _).length_eq

theorem namesWithStatus_perm {r1 r2 : List (String × LintResult)}
    (h : r1.Perm r2) (s : LintStatus) :
    (namesWithStatus r1 s).Perm (namesWithStatus r2 s) :=
  (h.filter _).map _

theorem newRT_details_getD (t : LintStatus) (results : ResultSet) (long : Bool)
    (s : LintStatus) :
    mapGetD (emptyRT.newRT t results long).resultDetails s [] =
      if long && statusLt t s then namesWithStatus results.Results s else [] := by
  rw [newRT_resultDetails,
    countLoop_details t long results.Results (zeroLoop (levelsLoop t []) []) [] s]
  simp [mapGetD, mapFind]

/-- C2 counterexample: the Result Set is a map ("insertion order irrelevant"),
but `newRT` iterates the Go map `results.Results`, whose iteration order is
unspecified; two iteration orders of the same two-entry result set give
`resultDetails` lists that differ in element order, so the per-severity lists
of contributing rule names are not equal across two calls on equal result
sets. -/
theorem spec_C2_newRT_counterexample :
    (([("a", (⟨.Error⟩ : LintResult)), ("b", ⟨.Error⟩)]).Perm
        [("b", (⟨.Error⟩ : LintResult)), ("a", ⟨.Error⟩)])
    ∧ (([("a", (⟨.Error⟩ : LintResult)), ("b", ⟨.Error⟩)]).map Prod.fst).Nodup
    ∧ mapGetD (emptyRT.newRT .Pass ⟨[("a", ⟨.Error⟩), ("b", ⟨.Error⟩)]⟩
          true).resultDetails .Error [] = ["a", "b"]
    ∧ mapGetD (emptyRT.newRT .Pass ⟨[("b", ⟨.Error⟩), ("a", ⟨.Error⟩)]⟩
          true).resultDetails .Error [] = ["b", "a"]
    ∧ (emptyRT.newRT .Pass ⟨[("a", ⟨.Error⟩), ("b", ⟨.Error⟩)]⟩
          true).resultDetails ≠
        (emptyRT.newRT .Pass ⟨[("b", ⟨.Error⟩), ("a", ⟨.Error⟩)]⟩
          true).resultDetails :=
  ⟨by decide, by decide, by decide, by decide, by decide⟩

/-- C2 (amended): `resultsTable.newRT` is a pure function of the result set
viewed as a map, the threshold and the verbosity flag: on result sets that
are equal as maps (permutations of one another), it returns equal
`lintLevelsAboveThreshold`, equal `resultCount` maps, and equal
`sortedLevels`, and `resultDetails` lists that are equal up to element order
(the order itself depends on the unspecified Go map iteration order). -/
theorem spec_C2_newRT_pure (t : LintStatus) (r1 r2 : ResultSet) (long : Bool)
    (h : r1.Results.Perm r2.Results) :
    (emptyRT.newRT t r1 long).lintLevelsAboveThreshold =
      (emptyRT.newRT t r2 long).lintLevelsAboveThreshold
    ∧ (∀ s, mapFind (emptyRT.newRT t r1 long).resultCount s =
        mapFind (emptyRT.newRT t r2 long).resultCount s)
    ∧ (emptyRT.newRT t r1 long).sortedLevels =
        (emptyRT.newRT t r2 long).sortedLevels
    ∧ ∀ s, (mapGetD (emptyRT.newRT t r1 long).resultDetails s []).Perm
        (mapGetD (emptyRT.newRT t r2 long).resultDetails s []) := by
  refine ⟨rfl, ?_, ?_, ?_⟩
  · intro s
    have h1 := countLoop_find t long r1.Results
      (zeroLoop (levelsLoop t []) []) [] s (zeroLoop_has t)
    have h2 := countLoop_find t long r2.Results
      (zeroLoop (levelsLoop t []) []) [] s (zeroLoop_has t)
    rw [newRT_resultCount, newRT_resultCount, h1, h2, countStatus_perm h s]
  · rw [newRT_sortedLevels_eq, newRT_sortedLevels_eq]
  · intro s
    rw [newRT_details_getD, newRT_details_getD]
    by_cases hc : long && statusLt t s
    · rw [if_pos hc, if_pos hc]
      exact namesWithStatus_perm h s
    · rw [if_neg hc, if_neg hc]

theorem spec_C2_newRT_pure_witness :
    ([("a", (⟨.Error⟩ : LintResult)), ("b", ⟨.Error⟩)]).Perm
        [("b", (⟨.Error⟩ : LintResult)), ("a", ⟨.Error⟩)]
    ∧ (mapGetD (emptyRT.newRT .Pass ⟨[("a", ⟨.Error⟩), ("b", ⟨.Error⟩)]⟩
          true).resultDetails .Error []).Perm
        (mapGetD (emptyRT.newRT .Pass ⟨[("b", ⟨.Error⟩), ("a", ⟨.Error⟩)]⟩
          true).resultDetails .Error []) :=
  ⟨by decide,
   (spec_C2_newRT_pure .Pass ⟨[("a", ⟨.Error⟩), ("b", ⟨.Error⟩)]⟩
      ⟨[("b", ⟨.Error⟩), ("a", ⟨.Error⟩)]⟩ true (by decide)).2.2.2 .Error⟩

/-! ## trimmedList (src/unnamed/part_000, lines 186-192) -/

/-- Go `unicode.IsSpace` restricted to the Latin-1 characters that
`strings.TrimSpace` removes: space, tab, newline, vertical tab, form feed,
carriage return, next line and no-break space. -/
def isGoSpace (c : Char) : Bool :=
  c == ' ' || c == '\t' || c == '\n' || c == Char.ofNat 11 ||
    c == Char.ofNat 12 || c == '\r' || c == Char.ofNat 133 || c == Char.ofNat 160

/-- Go `strings.Split(s, ",")` on a string as a character list: the
comma-separated segments in order; the empty string yields one empty
segment. -/
def splitComma : List Char → List (List Char)
  | [] => [[]]
  | c :: rest =>
    if c = ',' then [] :: splitComma rest
    else
      match splitComma rest with
      | [] => [[c]]
      | seg :: segs => (c :: seg) :: segs

/-- Go `strings.TrimSpace` on a character list: drop leading and trailing
whitespace. -/
def trimSpace (s : List Char) : List Char :=
  ((s.dropWhile isGoSpace).reverse.dropWhile isGoSpace).reverse

/-- The CLI helper `trimmedList` (src/unnamed/part_000 lines 186-192): split
the raw flag value on commas and trim spaces from each element. -/
def trimmedList (raw : List Char) : List (List Char) :=
  (splitComma raw).map trimSpace

/-- Joining comma-separated segments back with commas; inverse of
`splitComma`. -/
def joinComma : List (List Char) → List Char
  | [] => []
  | [seg] => seg
  | seg :: segs => seg ++ ',' :: joinComma segs

theorem splitComma_ne_nil (s : List Char) : splitComma s ≠ [] := by
  induction s with
  | nil => simp [splitComma]
  | cons c rest ih =>
    unfold splitComma
    by_cases hc : c = ','
    · simp [hc]
    · rw [if_neg hc]
      cases hs : splitComma rest with
      | nil => simp
      | cons seg segs => simp

theorem splitComma_length (s : List Char) :
    (splitComma s).length = s.count ',' + 1 := by
  induction s with
  | nil => rfl
  | cons c rest ih =>
    unfold splitComma
    by_cases hc : c = ','
    · subst hc
      simp [List.count_cons, ih]
    · rw [if_neg hc]
      cases hs : splitComma rest with
      | nil => exact absurd hs (splitComma_ne_nil rest)
      | cons seg segs =>
        rw [hs] at ih
        simp only [List.length_cons] at ih ⊢
        rw [List.count_cons]
        simp [hc, ih]

theorem joinComma_splitComma (s : List Char) :
    joinComma (splitComma s) = s := by
  induction s with
  | nil => rfl
  | cons c rest ih =>
    unfold splitComma
    by_cases hc : c = ','
    · subst hc
      rw [if_pos rfl]
      cases hs : splitComma rest with
      | nil => exact absurd hs (splitComma_ne_nil rest)
      | cons seg segs =>
        rw [hs] at ih
        rw [show joinComma ([] :: seg :: segs) =
            [] ++ ',' :: joinComma (seg :: segs) from rfl]
        rw [List.nil_append, ih]
    · rw [if_neg hc]
      cases hs : splitComma rest with
      | nil => exact absurd hs (splitComma_ne_nil rest)
      | cons seg segs =>
        rw [hs] at ih
        cases segs with
        | nil =>
          rw [show joinComma [c :: seg] = c :: seg from rfl]
          rw [show joinComma [seg] = seg from rfl] at ih
          rw [ih]
        | cons seg2 segs2 =>
          rw [show joinComma ((c :: seg) :: seg2 :: segs2) =
              (c :: seg) ++ ',' :: joinComma (seg2 :: segs2) from rfl]
          rw [show joinComma (seg :: seg2 :: segs2) =
              seg ++ ',' :: joinComma (seg2 :: segs2) from rfl] at ih
          rw [List.cons_append, ih]

theorem splitComma_no_comma (s : List Char) :
    ∀ seg ∈ splitComma s, ',' ∈ seg → False := by
  induction s with
  | nil =>
    intro seg hseg hmem
    simp [splitComma] at hseg
    subst hseg
    simp at hmem
  | cons c rest ih =>
    intro seg hseg hmem
    unfold splitComma at hseg
    by_cases hc : c = ','
    · rw [if_pos hc] at hseg
      rcases List.mem_cons.mp hseg with h | h
      · subst h; simp at hmem
      · exact ih seg h hmem
    · rw [if_neg hc] at hseg
      cases hs : splitComma rest with
      | nil => exact absurd hs (splitComma_ne_nil rest)
      | cons seg1 segs =>
        rw [hs] at hseg
        rcases List.mem_cons.mp hseg with h | h
        · subst h
          rcases List.mem_cons.mp hmem with h2 | h2
          · exact hc h2.symm
          · exact ih seg1 (hs ▸ List.mem_cons_self seg1 segs) h2
        · exact ih seg (hs ▸ List.mem_cons_of_mem seg1 h) hmem

/-- C8: `trimmedList` returns one element per comma-separated segment of its
argument — its length is the comma count plus one, its elements are the
segments in order with surrounding whitespace trimmed (the segments join
back to the input and contain no comma) — and on the empty string it returns
the one-element list holding the empty string, never the empty list. -/
theorem spec_C8_trimmedList (s : List Char) :
    (trimmedList s).length = s.count ',' + 1
    ∧ trimmedList s = (splitComma s).map trimSpace
    ∧ joinComma (splitComma s) = s
    ∧ (∀ seg ∈ splitComma s, ',' ∈ seg → False)
    ∧ trimmedList [] = [[]]
    ∧ (trimmedList s = [] → False) := by
  refine ⟨?_, rfl, joinComma_splitComma s, splitComma_no_comma s, rfl, ?_⟩
  · rw [trimmedList, List.length_map, splitComma_length]
  · intro hnil
    have := congrArg List.length hnil
    rw [trimmedList, List.length_map, splitComma_length] at this
    simp at this

theorem spec_C8_trimmedList_witness :
    (trimmedList [' ', 'a', ',', 'b', ' ', ',', 'c']).length =
      ([' ', 'a', ',', 'b', ' ', ',', 'c'].count ',') + 1 :=
  (spec_C8_trimmedList [' ', 'a', ',', 'b', ' ', ',', 'c']).1

/-! ## Registry filtering and setLints (src/unnamed/part_000, lines 194-229) -/

/-- Modelled from the spec: a compiled regular expression (the "name regular
expression" of the Filter Criteria) is an opaque matcher; `setLints` only
depends on whether compilation succeeds, so the compiler itself is a
parameter. -/
structure Regexp where
  matchesName : List Char → Bool

/-- Modelled from the spec: the rule metadata entry of the registry, carrying
the fields the filter consults — the unique name and the provenance/source
tag. -/
structure LintMeta where
  Name : List Char
  Source : List Char
  deriving DecidableEq

/-- Modelled from the spec: `lint.FilterOptions`, the criteria struct that
`setLints` populates from the flags. -/
structure FilterOptions where
  NameFilter : Option Regexp := none
  IncludeNames : List (List Char) := []
  ExcludeNames : List (List Char) := []
  IncludeSources : List (List Char) := []
  ExcludeSources : List (List Char) := []

/-- Failure outcomes of `setLints`: the returned errors (bad name filter,
conflicting filter modes) and the `log.Fatalf` process aborts on bad source
lists, all modelled as `Except.error` values. -/
inductive SetLintsErr where
  | badNameFilter
  | fatalExcludeSources
  | fatalIncludeSources
  | filterConflict
  deriving DecidableEq, Repr

/-- Modelled from the spec (section 4.3): whether one rule survives the
filter — regex mode keeps a rule iff its name matches; otherwise non-empty
include lists restrict, and exclude lists always remove. -/
def keepLint (opts : FilterOptions) (l : LintMeta) : Bool :=
  match opts.NameFilter with
  | some re => re.matchesName l.Name
  | none =>
    (opts.IncludeNames.isEmpty || opts.IncludeNames.contains l.Name) &&
    (opts.IncludeSources.isEmpty || opts.IncludeSources.contains l.Source) &&
    !(opts.ExcludeNames.contains l.Name) &&
    !(opts.ExcludeSources.contains l.Source)

/-- Modelled from the spec: `Registry.Filter` of the `lint` package (not
under src/) — "this mode is mutually exclusive with include/exclude name
lists (configuration error if both supplied)"; otherwise a non-destructive
sub-registry of the surviving rules. -/
def registryFilter (reg : List LintMeta) (opts : FilterOptions) :
    Except SetLintsErr (List LintMeta) :=
  if opts.NameFilter.isSome &&
      (!opts.IncludeNames.isEmpty || !opts.ExcludeNames.isEmpty) then
    .error .filterConflict
  else
    .ok (reg.filter (keepLint opts))

/-- The CLI flag values consumed by `setLints`. -/
structure Flags where
  nameFilter : List Char
  includeNames : List Char
  excludeNames : List Char
  includeSources : List Char
  excludeSources : List Char

/-- The `if nameFilter != ""` block of `setLints`: compile the regex,
returning the error on failure, otherwise record the filter. -/
def applyNameFilter (compile : List Char → Option Regexp) (fl : Flags)
    (opts : FilterOptions) : Except SetLintsErr FilterOptions :=
  if fl.nameFilter ≠ [] then
    match compile fl.nameFilter with
    | none => .error .badNameFilter
    | some r => .ok { opts with NameFilter := some r }
  else .ok opts

/-- The `if excludeSources != ""` block of `setLints`: parse the source
list, aborting the process (`log.Fatalf`) on failure. -/
def applyExcludeSources (sourcesFromString : List Char → Option (List (List Char)))
    (fl : Flags) (opts : FilterOptions) : Except SetLintsErr FilterOptions :=
  if fl.excludeSources ≠ [] then
    match sourcesFromString fl.excludeSources with
    | none => .error .fatalExcludeSources
    | some srcs => .ok { opts with ExcludeSources := srcs }
  else .ok opts

/-- The `if includeSources != ""` block of `setLints`: parse the source
list, aborting the process (`log.Fatalf`) on failure. -/
def applyIncludeSources (sourcesFromString : List Char → Option (List (List Char)))
    (fl : Flags) (opts : FilterOptions) : Except SetLintsErr FilterOptions :=
  if fl.includeSources ≠ [] then
    match sourcesFromString fl.includeSources with
    | none => .error .fatalIncludeSources
    | some srcs => .ok { opts with IncludeSources := srcs }
  else .ok opts

/-- The two name-list blocks of `setLints`: record the trimmed exclude and
include name lists when their flags are non-empty. -/
def nameListOpts (fl : Flags) (opts3 : FilterOptions) : FilterOptions :=
  let opts4 := if fl.excludeNames ≠ [] then
      { opts3 with ExcludeNames := trimmedList fl.excludeNames }
    else opts3
  if fl.includeNames ≠ [] then
    { opts4 with IncludeNames := trimmedList fl.includeNames }
  else opts4

/-- The `setLints` function (src/unnamed/part_000 lines 197-229),
parameterized by the external regular-expression compiler, the external
source-list parser, and the global registry.  With no filter flags set it
returns the global registry unchanged; otherwise it populates
`FilterOptions` in program order and calls `Filter`. -/
def setLints (compile : List Char → Option Regexp)
    (sourcesFromString : List Char → Option (List (List Char)))
    (globalRegistry : List LintMeta) (fl : Flags) :
    Except SetLintsErr (List LintMeta) :=
  if fl.nameFilter = [] ∧ fl.includeNames = [] ∧ fl.excludeNames = [] ∧
      fl.includeSources = [] ∧ fl.excludeSources = [] then
    .ok globalRegistry
  else
    applyNameFilter compile fl {} >>= fun opts1 =>
    applyExcludeSources sourcesFromString fl opts1 >>= fun opts2 =>
    applyIncludeSources sourcesFromString fl opts2 >>= fun opts3 =>
    registryFilter globalRegistry (nameListOpts fl opts3)

theorem trimmedList_ne_nil (raw : List Char) : trimmedList raw ≠ [] := by
  intro h
  have hl := congrArg List.length h
  rw [trimmedList, List.length_map, splitComma_length] at hl
  simp at hl

theorem applyNameFilter_ok (compile : List Char → Option Regexp) (fl : Flags)
    (opts opts1 : FilterOptions) (h1 : fl.nameFilter ≠ [])
    (h : applyNameFilter compile fl opts = .ok opts1) :
    ∃ r, compile fl.nameFilter = some r ∧
      opts1 = { opts with NameFilter := some r } := by
  unfold applyNameFilter at h
  rw [if_pos h1] at h
  cases hc : compile fl.nameFilter with
  | none => rw [hc] at h; simp at h
  | some r =>
    rw [hc] at h
    simp only [Except.ok.injEq] at h
    exact ⟨r, rfl, h.symm⟩

theorem applyExcludeSources_ok_fields
    (sfs : List Char → Option (List (List Char))) (fl : Flags)
    (opts opts2 : FilterOptions)
    (h : applyExcludeSources sfs fl opts = .ok opts2) :
    opts2.NameFilter = opts.NameFilter ∧
      opts2.IncludeNames = opts.IncludeNames ∧
      opts2.ExcludeNames = opts.ExcludeNames := by
  unfold applyExcludeSources at h
  by_cases he : fl.excludeSources ≠ []
  · rw [if_pos he] at h
    cases hs : sfs fl.excludeSources with
    | none => rw [hs] at h; simp at h
    | some srcs =>
      rw [hs] at h
      simp only [Except.ok.injEq] at h
      refine ⟨?_, ?_, ?_⟩ <;> rw [← h]
  · rw [if_neg he] at h
    simp only [Except.ok.injEq] at h
    refine ⟨?_, ?_, ?_⟩ <;> rw [← h]

theorem applyIncludeSources_ok_fields
    (sfs : List Char → Option (List (List Char))) (fl : Flags)
    (opts opts3 : FilterOptions)
    (h : applyIncludeSources sfs fl opts = .ok opts3) :
    opts3.NameFilter = opts.NameFilter ∧
      opts3.IncludeNames = opts.IncludeNames ∧
      opts3.ExcludeNames = opts.ExcludeNames := by
  unfold applyIncludeSources at h
  by_cases he : fl.includeSources ≠ []
  · rw [if_pos he] at h
    cases hs : sfs fl.includeSources with
    | none => rw [hs] at h; simp at h
    | some srcs =>
      rw [hs] at h
      simp only [Except.ok.injEq] at h
      refine ⟨?_, ?_, ?_⟩ <;> rw [← h]
  · rw [if_neg he] at h
    simp only [Except.ok.injEq] at h
    refine ⟨?_, ?_, ?_⟩ <;> rw [← h]

theorem applyExcludeSources_error
    (sfs : List Char → Option (List (List Char))) (fl : Flags)
    (opts : FilterOptions) (e : SetLintsErr)
    (h : applyExcludeSources sfs fl opts = .error e) :
    e = .fatalExcludeSources := by
  unfold applyExcludeSources at h
  by_cases he : fl.excludeSources ≠ []
  · rw [if_pos he] at h
    cases hs : sfs fl.excludeSources with
    | none => rw [hs] at h; simp at h; exact h.symm
    | some srcs => rw [hs] at h; simp at h
  · rw [if_neg he] at h; simp at h

theorem applyIncludeSources_error
    (sfs : List Char → Option (List (List Char))) (fl : Flags)
    (opts : FilterOptions) (e : SetLintsErr)
    (h : applyIncludeSources sfs fl opts = .error e) :
    e = .fatalIncludeSources := by
  unfold applyIncludeSources at h
  by_cases he : fl.includeSources ≠ []
  · rw [if_pos he] at h
    cases hs : sfs fl.includeSources with
    | none => rw [hs] at h; simp at h; exact h.symm
    | some srcs => rw [hs] at h; simp at h
  · rw [if_neg he] at h; simp at h

theorem nameListOpts_NameFilter (fl : Flags) (opts3 : FilterOptions) :
    (nameListOpts fl opts3).NameFilter = opts3.NameFilter := by
  unfold nameListOpts
  by_cases h4 : fl.excludeNames ≠ [] <;> by_cases h5 : fl.includeNames ≠ [] <;>
    simp [h4, h5]

theorem nameListOpts_nonempty (fl : Flags) (opts3 : FilterOptions)
    (h2 : fl.includeNames ≠ [] ∨ fl.excludeNames ≠ []) :
    (nameListOpts fl opts3).IncludeNames ≠ [] ∨
      (nameListOpts fl opts3).ExcludeNames ≠ [] := by
  unfold nameListOpts
  rcases h2 with h | h
  · left
    simp only [h, ne_eq, not_false_iff, if_true, if_pos]
    exact trimmedList_ne_nil _
  · right
    by_cases h5 : fl.includeNames ≠ [] <;>
      simp [h, h5, trimmedList_ne_nil]

theorem registryFilter_conflict (reg : List LintMeta) (opts : FilterOptions)
    (hn : opts.NameFilter.isSome = true)
    (hl : opts.IncludeNames ≠ [] ∨ opts.ExcludeNames ≠ []) :
    registryFilter reg opts = .error .filterConflict := by
  unfold registryFilter
  rw [if_pos]
  rw [hn, Bool.true_and, Bool.or_eq_true]
  rcases hl with h | h
  · left; simp [List.isEmpty_iff, h]
  · right; simp [List.isEmpty_iff, h]

theorem registryFilter_error (reg : List LintMeta) (opts : FilterOptions)
    (e : SetLintsErr) (h : registryFilter reg opts = .error e) :
    e = .filterConflict := by
  unfold registryFilter at h
  by_cases hc : (opts.NameFilter.isSome &&
      (!opts.IncludeNames.isEmpty || !opts.ExcludeNames.isEmpty)) = true
  · rw [if_pos hc] at h; simp at h; exact h.symm
  · rw [if_neg hc] at h; simp at h


theorem exceptBind_ok (a : α) (f : α → Except ε β) :
    (Except.ok a >>= f) = f a := rfl

theorem exceptBind_error (e : ε) (f : α → Except ε β) :
    ((Except.error e : Except ε α) >>= f) = Except.error e := rfl

/-- C6: whenever the nameFilter flag is non-empty and at least one of the
includeNames or excludeNames flags is also non-empty, `setLints` fails —
either with a returned error or with a modelled `log.Fatalf` abort — and
never returns a usable registry, for every regular-expression compiler,
source parser and global registry. -/
theorem spec_C6_setLints_conflict (compile : List Char → Option Regexp)
    (sfs : List Char → Option (List (List Char)))
    (reg : List LintMeta) (fl : Flags)
    (h1 : fl.nameFilter ≠ [])
    (h2 : fl.includeNames ≠ [] ∨ fl.excludeNames ≠ []) :
    ∃ e, setLints compile sfs reg fl = .error e := by
  unfold setLints
  rw [if_neg (fun hf => h1 hf.1)]
  cases hnf : applyNameFilter compile fl {} with
  | error e => exact ⟨e, exceptBind_error e _⟩
  | ok opts1 =>
    rw [exceptBind_ok]
    cases hex : applyExcludeSources sfs fl opts1 with
    | error e => exact ⟨e, exceptBind_error e _⟩
    | ok opts2 =>
      rw [exceptBind_ok]
      cases hin : applyIncludeSources sfs fl opts2 with
      | error e => exact ⟨e, exceptBind_error e _⟩
      | ok opts3 =>
        rw [exceptBind_ok]
        obtain ⟨r, _, hopts1⟩ := applyNameFilter_ok compile fl {} opts1 h1 hnf
        have hnf3 : opts3.NameFilter = some r := by
          rw [(applyIncludeSources_ok_fields sfs fl opts2 opts3 hin).1,
            (applyExcludeSources_ok_fields sfs fl opts1 opts2 hex).1, hopts1]
        refine ⟨.filterConflict, ?_⟩
        apply registryFilter_conflict
        · rw [nameListOpts_NameFilter, hnf3]
          rfl
        · exact nameListOpts_nonempty fl opts3 h2

theorem spec_C6_setLints_conflict_witness :
    (['a'] : List Char) ≠ []
    ∧ ∃ e, setLints (fun _ => some ⟨fun _ => true⟩) (fun _ => some []) []
        ⟨['a'], ['b'], [], [], []⟩ = .error e :=
  ⟨by decide,
   spec_C6_setLints_conflict (fun _ => some ⟨fun _ => true⟩) (fun _ => some [])
     [] ⟨['a'], ['b'], [], [], []⟩ (by decide) (Or.inl (by decide))⟩

/-- C7: when the nameFilter flag (necessarily non-empty, since the empty
pattern is a valid regular expression) fails to compile, `setLints` returns
the bad-name-filter error immediately, before any lint run; and when the
pattern compiles, no bad-name-filter error is ever produced. -/
theorem spec_C7_setLints_badRegex (compile : List Char → Option Regexp)
    (sfs : List Char → Option (List (List Char)))
    (reg : List LintMeta) (fl : Flags) :
    (fl.nameFilter ≠ [] → compile fl.nameFilter = none →
      setLints compile sfs reg fl = .error .badNameFilter)
    ∧ (∀ r, compile fl.nameFilter = some r →
      setLints compile sfs reg fl ≠ .error .badNameFilter) := by
  constructor
  · intro h1 hc
    unfold setLints
    rw [if_neg (fun hf => h1 hf.1)]
    have hnf : applyNameFilter compile fl {} = .error .badNameFilter := by
      unfold applyNameFilter
      rw [if_pos h1, hc]
    rw [hnf, exceptBind_error]
  · intro r hc heq
    unfold setLints at heq
    by_cases hfast : fl.nameFilter = [] ∧ fl.includeNames = [] ∧
        fl.excludeNames = [] ∧ fl.includeSources = [] ∧ fl.excludeSources = []
    · rw [if_pos hfast] at heq
      simp at heq
    · rw [if_neg hfast] at heq
      cases hnf : applyNameFilter compile fl {} with
      | error e =>
        unfold applyNameFilter at hnf
        by_cases h1 : fl.nameFilter ≠ []
        · rw [if_pos h1, hc] at hnf
          simp at hnf
        · rw [if_neg h1] at hnf
          simp at hnf
      | ok opts1 =>
        rw [hnf, exceptBind_ok] at heq
        cases hex : applyExcludeSources sfs fl opts1 with
        | error e =>
          rw [hex, exceptBind_error] at heq
          simp only [Except.error.injEq] at heq
          rw [applyExcludeSources_error sfs fl opts1 e hex] at heq
          exact absurd heq (by simp)
        | ok opts2 =>
          rw [hex, exceptBind_ok] at heq
          cases hin : applyIncludeSources sfs fl opts2 with
          | error e =>
            rw [hin, exceptBind_error] at heq
            simp only [Except.error.injEq] at heq
            rw [applyIncludeSources_error sfs fl opts2 e hin] at heq
            exact absurd heq (by simp)
          | ok opts3 =>
            rw [hin, exceptBind_ok] at heq
            cases hrf : registryFilter reg (nameListOpts fl opts3) with
            | error e =>
              rw [hrf] at heq
              simp only [Except.error.injEq] at heq
              rw [registryFilter_error reg (nameListOpts fl opts3) e hrf] at heq
              exact absurd heq (by simp)
            | ok res =>
              rw [hrf] at heq
              simp at heq

theorem spec_C7_setLints_badRegex_witness :
    setLints (fun _ => none) (fun _ => some []) []
        ⟨['[', 'a'], [], [], [], []⟩ = .error .badNameFilter :=
  (spec_C7_setLints_badRegex (fun _ => none) (fun _ => some []) []
    ⟨['[', 'a'], [], [], [], []⟩).1 (by decide) rfl

/-! ## Go time model (for the ev_valid_time_too_long rule) -/

/-- Modelled from the spec: a certificate validity instant (notBefore or
notAfter) — a civil date as days since 1970-01-01 plus seconds within the
day, the components of Go `time.Time` the rule consults. -/
structure GoTime where
  days : Int
  secs : Int
  deriving DecidableEq, Repr

/-- Days since 1970-01-01 of a proleptic-Gregorian civil date with
normalized month (1 to 12); the day argument acts linearly, matching the
day-overflow normalization of Go's `time.Date`. -/
def daysFromCivil (y m d : Int) : Int :=
  let yAdj := y - (if m ≤ 2 then 1 else 0)
  let era := Int.fdiv yAdj 400
  let yoe := yAdj - era * 400
  let mp := Int.fmod (m + 9) 12
  let doy := Int.fdiv (153 * mp + 2) 5 + d - 1
  let doe := yoe * 365 + Int.fdiv yoe 4 - Int.fdiv yoe 100 + doy
  era * 146097 + doe - 719468

/-- Civil date (year, month, day) of a day count since 1970-01-01: the
decomposition Go's `Time.Date` accessor performs. -/
def civilFromDays (z0 : Int) : Int × Int × Int :=
  let z := z0 + 719468
  let era := Int.fdiv z 146097
  let doe := z - era * 146097
  let yoe := Int.fdiv
    (doe - Int.fdiv doe 1460 + Int.fdiv doe 36524 - Int.fdiv doe 146096) 365
  let doy := doe - (365 * yoe + Int.fdiv yoe 4 - Int.fdiv yoe 100)
  let mp := Int.fdiv (5 * doy + 2) 153
  let d := doy - Int.fdiv (153 * mp + 2) 5 + 1
  let m := mp + (if mp < 10 then 3 else -9)
  (yoe + era * 400 + (if m ≤ 2 then 1 else 0), m, d)

/-- Month normalization of Go's `time.Date` followed by the civil-day
computation: the instant depends on the date only through the total month
count `12*y + (m-1)` and the day. -/
def dateDays (y m d : Int) : Int :=
  let n := 12 * y + (m - 1)
  daysFromCivil (Int.fdiv n 12) (Int.fmod n 12 + 1) d

/-- Go `time.Time.AddDate(years, months, days)`: decompose the instant into
its civil date, add the components, renormalize; the clock time within the
day is unchanged. -/
def addDate (t : GoTime) (years months days : Int) : GoTime :=
  { days := dateDays ((civilFromDays t.days).1 + years)
      ((civilFromDays t.days).2.1 + months)
      ((civilFromDays t.days).2.2 + days)
    secs := t.secs }

/-- Go `time.Time.Before`. -/
def before (t u : GoTime) : Bool :=
  decide (t.days < u.days ∨ (t.days = u.days ∧ t.secs < u.secs))

/-- The instant of a civil date at midnight. -/
def mkDate (y m d : Int) : GoTime := { days := dateDays y m d, secs := 0 }

/-! ## Certificate model and the three lint rules (src/lints) -/

/-- An ASN.1 object identifier as its arc sequence. -/
abbrev OID := List Nat

/-- The postalCode attribute type, `util.PostalCodeOID` (2.5.4.17). -/
def PostalCodeOID : OID := [2, 5, 4, 17]

/-- The organizationName attribute type, `util.OrganizationNameOID`
(2.5.4.10). -/
def OrganizationNameOID : OID := [2, 5, 4, 10]

/-- The nameConstraints extension identifier, `util.NameConstOID`
(2.5.29.30). -/
def NameConstOID : OID := [2, 5, 29, 30]

/-- Modelled from the spec: the EV policy OIDs that `util.IsEv` (not under
src/) recognises; one representative CA/Browser-Forum EV identifier is
listed — the claims depend only on membership. -/
def evPolicyOIDs : List OID := [[2, 23, 140, 1, 1]]

/-- Modelled from the spec: an X.509 extension as the certificate object
exposes it — identifier and critical flag (the raw value is not read by
these rules). -/
structure Extension where
  Id : OID
  Critical : Bool
  deriving DecidableEq, Repr

/-- Modelled from the spec: the parsed certificate fields the three rules
consult — subject attribute types, policy identifiers, the validity period,
the extension list, and the subordinate-CA classification. -/
structure Certificate where
  SubjectTypes : List OID
  PolicyIdentifiers : List OID
  NotBefore : GoTime
  NotAfter : GoTime
  Extensions : List Extension
  IsSubCACert : Bool
  deriving DecidableEq, Repr

/-- Modelled from the spec: `util.TypeInName` (not under src/) — whether an
attribute of the given type occurs among the subject name components. -/
def TypeInName (nameTypes : List OID) (oid : OID) : Bool :=
  decide (oid ∈ nameTypes)

/-- Modelled from the spec: `util.IsEv` (not under src/) — whether any
certificate policy is an EV policy OID. -/
def IsEv (policies : List OID) : Bool :=
  policies.any (fun p => decide (p ∈ evPolicyOIDs))

/-- Modelled from the spec: `util.IsExtInCert` (not under src/) — whether
the certificate carries an extension with the given identifier. -/
def IsExtInCert (cert : Certificate) (oid : OID) : Bool :=
  cert.Extensions.any (fun e => decide (e.Id = oid))

/-- Modelled from the spec: `util.GetExtFromCert` (not under src/) — the
first extension with the given identifier, `none` (a nil pointer in Go)
when the certificate has no such extension. -/
def GetExtFromCert (cert : Certificate) (oid : OID) : Option Extension :=
  cert.Extensions.find? (fun e => decide (e.Id = oid))

/-- The `ResultStruct` a rule's `RunTest` returns; `Result` is the
severity. -/
structure ResultStruct where
  Result : LintStatus
  deriving DecidableEq, Repr

/-- `postalNoOrg.Initialize` (lint_subject_postal_without_org.go lines
22-24): always nil. -/
def postalNoOrgInitialize : Option String := none

/-- `postalNoOrg.CheckApplies` (lines 26-28): applies to every
certificate. -/
def postalNoOrgCheckApplies (_ : Certificate) : Bool := true

/-- `postalNoOrg.RunTest` (lines 30-36): Error when the subject has a
postalCode attribute but no organizationName attribute, else Pass. -/
def postalNoOrgRunTest (cert : Certificate) : ResultStruct × Option String :=
  if TypeInName cert.SubjectTypes PostalCodeOID &&
      !TypeInName cert.SubjectTypes OrganizationNameOID then
    ({ Result := .Error }, none)
  else
    ({ Result := .Pass }, none)

/-- `evValidTooLong.Initialize` (lint_ev_valid_time_too_long.go lines
15-17): always nil. -/
def evValidTooLongInitialize : Option String := none

/-- `evValidTooLong.CheckApplies` (lines 19-21): the certificate's policy
identifiers match the EV policy OIDs. -/
def evValidTooLongCheckApplies (c : Certificate) : Bool :=
  IsEv c.PolicyIdentifiers

/-- `evValidTooLong.RunTest` (lines 23-28): Error when notBefore plus 2
years and 3 months is before notAfter, else Pass. -/
def evValidTooLongRunTest (c : Certificate) : ResultStruct × Option String :=
  if before (addDate c.NotBefore 2 3 0) c.NotAfter then
    ({ Result := .Error }, none)
  else
    ({ Result := .Pass }, none)

/-- `SubCANameConstraintsNotCritical.Initialize`
(lint_sub_ca_name_constraints_not_critical.go lines 18-20): always nil. -/
def subCANameConstraintsInitialize : Option String := none

/-- `SubCANameConstraintsNotCritical.CheckApplies` (lines 22-24): a
subordinate CA certificate carrying the nameConstraints extension. -/
def subCANameConstraintsCheckApplies (cert : Certificate) : Bool :=
  cert.IsSubCACert && IsExtInCert cert NameConstOID

/-- `SubCANameConstraintsNotCritical.RunTest` (lines 26-32): reads the
`Critical` flag of the extension returned by `util.GetExtFromCert`; when
the certificate has no nameConstraints extension that call yields a nil
pointer and the `ski.Critical` access panics, modelled as `none`. -/
def subCANameConstraintsRunTest (cert : Certificate) :
    Option (ResultStruct × Option String) :=
  (GetExtFromCert cert NameConstOID).map (fun ski =>
    if ski.Critical then ({ Result := .Pass }, none)
    else ({ Result := .Warn }, none))

/-- A certificate whose subject has a postalCode attribute and no
organizationName attribute. -/
def certPostalNoOrg : Certificate :=
  { SubjectTypes := [PostalCodeOID], PolicyIdentifiers := [],
    NotBefore := mkDate 2020 1 1, NotAfter := mkDate 2021 1 1,
    Extensions := [], IsSubCACert := false }

/-- The same certificate with an organizationName attribute added. -/
def certPostalWithOrg : Certificate :=
  { SubjectTypes := [PostalCodeOID, OrganizationNameOID],
    PolicyIdentifiers := [],
    NotBefore := mkDate 2020 1 1, NotAfter := mkDate 2021 1 1,
    Extensions := [], IsSubCACert := false }

/-- An EV certificate valid 2020-01-01 to 2022-06-01 (29 months). -/
def evCertLong : Certificate :=
  { SubjectTypes := [], PolicyIdentifiers := [[2, 23, 140, 1, 1]],
    NotBefore := mkDate 2020 1 1, NotAfter := mkDate 2022 6 1,
    Extensions := [], IsSubCACert := false }

/-- An EV certificate valid 2020-01-01 to 2022-03-01 (26 months). -/
def evCertShort : Certificate :=
  { SubjectTypes := [], PolicyIdentifiers := [[2, 23, 140, 1, 1]],
    NotBefore := mkDate 2020 1 1, NotAfter := mkDate 2022 3 1,
    Extensions := [], IsSubCACert := false }

/-- A subordinate CA certificate with a critical nameConstraints
extension. -/
def subCACertCritical : Certificate :=
  { SubjectTypes := [], PolicyIdentifiers := [],
    NotBefore := mkDate 2020 1 1, NotAfter := mkDate 2021 1 1,
    Extensions := [{ Id := NameConstOID, Critical := true }],
    IsSubCACert := true }

/-- A subordinate CA certificate with no extensions at all. -/
def subCACertNoExts : Certificate :=
  { SubjectTypes := [], PolicyIdentifiers := [],
    NotBefore := mkDate 2020 1 1, NotAfter := mkDate 2021 1 1,
    Extensions := [], IsSubCACert := true }

theorem dateDays_congr (y1 m1 y2 m2 d : Int)
    (h : 12 * y1 + (m1 - 1) = 12 * y2 + (m2 - 1)) :
    dateDays y1 m1 d = dateDays y2 m2 d := by
  unfold dateDays
  rw [h]

theorem addDate_two_three_eq (t : GoTime) :
    addDate t 2 3 0 = addDate t 0 27 0 := by
  unfold addDate
  rw [dateDays_congr ((civilFromDays t.days).1 + 2)
    ((civilFromDays t.days).2.1 + 3) ((civilFromDays t.days).1 + 0)
    ((civilFromDays t.days).2.1 + 27) ((civilFromDays t.days).2.2 + 0)
    (by ring)]

/-- C4: for every certificate, `postalNoOrg.RunTest` returns severity Error
(with nil error) when the subject contains a postalCode attribute but no
organizationName attribute, and severity Pass when an organizationName
attribute is present, and also Pass when no postalCode attribute is
present. -/
theorem spec_C4_postalNoOrg (cert : Certificate) :
    (PostalCodeOID ∈ cert.SubjectTypes →
      OrganizationNameOID ∉ cert.SubjectTypes →
      postalNoOrgRunTest cert = ({ Result := .Error }, none))
    ∧ (OrganizationNameOID ∈ cert.SubjectTypes →
      postalNoOrgRunTest cert = ({ Result := .Pass }, none))
    ∧ (PostalCodeOID ∉ cert.SubjectTypes →
      postalNoOrgRunTest cert = ({ Result := .Pass }, none)) := by
  refine ⟨?_, ?_, ?_⟩
  · intro hpc horg
    unfold postalNoOrgRunTest
    rw [if_pos]
    simp [TypeInName, hpc, horg]
  · intro horg
    unfold postalNoOrgRunTest
    rw [if_neg]
    simp [TypeInName, horg]
  · intro hpc
    unfold postalNoOrgRunTest
    rw [if_neg]
    simp [TypeInName, hpc]

theorem spec_C4_postalNoOrg_witness :
    (PostalCodeOID ∈ certPostalNoOrg.SubjectTypes
      ∧ OrganizationNameOID ∉ certPostalNoOrg.SubjectTypes
      ∧ postalNoOrgRunTest certPostalNoOrg = ({ Result := .Error }, none))
    ∧ (OrganizationNameOID ∈ certPostalWithOrg.SubjectTypes
      ∧ postalNoOrgRunTest certPostalWithOrg = ({ Result := .Pass }, none)) :=
  ⟨⟨by decide, by decide,
    (spec_C4_postalNoOrg certPostalNoOrg).1 (by decide) (by decide)⟩,
   ⟨by decide, (spec_C4_postalNoOrg certPostalWithOrg).2.1 (by decide)⟩⟩

/-- C5: for every certificate to which `evValidTooLong` applies (its policy
identifiers match the EV policy OIDs), `RunTest` returns severity Error when
notAfter is later than notBefore plus 27 months (Go `AddDate(2, 3, 0)`
equals `AddDate(0, 27, 0)`), and severity Pass otherwise; in particular,
with notBefore 2020-01-01, notAfter 2022-06-01 yields Error and notAfter
2022-03-01 yields Pass. -/
theorem spec_C5_evValidTooLong (c : Certificate)
    (_happ : evValidTooLongCheckApplies c = true) :
    (before (addDate c.NotBefore 0 27 0) c.NotAfter = true →
      evValidTooLongRunTest c = ({ Result := .Error }, none))
    ∧ (before (addDate c.NotBefore 0 27 0) c.NotAfter = false →
      evValidTooLongRunTest c = ({ Result := .Pass }, none))
    ∧ evValidTooLongRunTest evCertLong = ({ Result := .Error }, none)
    ∧ evValidTooLongRunTest evCertShort = ({ Result := .Pass }, none) := by
  refine ⟨?_, ?_, by decide, by decide⟩
  · intro h
    unfold evValidTooLongRunTest
    rw [addDate_two_three_eq, if_pos h]
  · intro h
    unfold evValidTooLongRunTest
    rw [addDate_two_three_eq, if_neg (by simp [h])]

theorem spec_C5_evValidTooLong_witness :
    evValidTooLongCheckApplies evCertLong = true
    ∧ before (addDate evCertLong.NotBefore 0 27 0) evCertLong.NotAfter = true
    ∧ evValidTooLongRunTest evCertLong = ({ Result := .Error }, none) :=
  ⟨by decide, by decide,
   (spec_C5_evValidTooLong evCertLong (by decide)).1 (by decide)⟩

/-- C9 counterexample: `SubCANameConstraintsNotCritical.RunTest` does not
return a result for every certificate — on a certificate without the
nameConstraints extension `util.GetExtFromCert` yields a nil pointer and
the `ski.Critical` access panics (modelled as `none`), so no (result, nil
error) pair in {Pass, Warn} is produced. -/
theorem spec_C9_lints_counterexample :
    subCANameConstraintsRunTest subCACertNoExts = none
    ∧ subCANameConstraintsRunTest subCACertNoExts ≠
        some ({ Result := .Pass }, none)
    ∧ subCANameConstraintsRunTest subCACertNoExts ≠
        some ({ Result := .Warn }, none) :=
  ⟨rfl, by decide, by decide⟩

/-- C9 (amended): all three rules' `Initialize` return nil; `postalNoOrg`
and `evValidTooLong` `RunTest` return, for every certificate, a nil error
and a severity in {Pass, Error}; `SubCANameConstraintsNotCritical.RunTest`
does so with a severity in {Pass, Warn} for every certificate carrying the
nameConstraints extension (in particular every certificate the rule applies
to), but dereferences a nil pointer instead of returning on a certificate
without that extension. -/
theorem spec_C9_lints_no_malfunction :
    postalNoOrgInitialize = none
    ∧ evValidTooLongInitialize = none
    ∧ subCANameConstraintsInitialize = none
    ∧ (∀ c : Certificate, (postalNoOrgRunTest c).2 = none ∧
        ((postalNoOrgRunTest c).1.Result = .Pass ∨
          (postalNoOrgRunTest c).1.Result = .Error))
    ∧ (∀ c : Certificate, (evValidTooLongRunTest c).2 = none ∧
        ((evValidTooLongRunTest c).1.Result = .Pass ∨
          (evValidTooLongRunTest c).1.Result = .Error))
    ∧ (∀ c : Certificate, IsExtInCert c NameConstOID = true →
        ∃ r : ResultStruct, subCANameConstraintsRunTest c = some (r, none) ∧
          (r.Result = .Pass ∨ r.Result = .Warn)) := by
  refine ⟨rfl, rfl, rfl, ?_, ?_, ?_⟩
  · intro c
    unfold postalNoOrgRunTest
    by_cases h : (TypeInName c.SubjectTypes PostalCodeOID &&
        !TypeInName c.SubjectTypes OrganizationNameOID) = true
    · rw [if_pos h]
      exact ⟨rfl, Or.inr rfl⟩
    · rw [if_neg h]
      exact ⟨rfl, Or.inl rfl⟩
  · intro c
    unfold evValidTooLongRunTest
    by_cases h : before (addDate c.NotBefore 2 3 0) c.NotAfter = true
    · rw [if_pos h]
      exact ⟨rfl, Or.inr rfl⟩
    · rw [if_neg h]
      exact ⟨rfl, Or.inl rfl⟩
  · intro c hext
    unfold IsExtInCert at hext
    rw [List.any_eq_true] at hext
    obtain ⟨e, hmem, he⟩ := hext
    have hfind : ∃ ef, GetExtFromCert c NameConstOID = some ef := by
      rw [← Option.isSome_iff_exists]
      unfold GetExtFromCert
      rw [List.find?_isSome]
      exact ⟨e, hmem, he⟩
    obtain ⟨ef, hef⟩ := hfind
    unfold subCANameConstraintsRunTest
    rw [hef, Option.map_some']
    by_cases hc : ef.Critical = true
    · rw [if_pos hc]
      exact ⟨{ Result := .Pass }, rfl, Or.inl rfl⟩
    · rw [if_neg hc]
      exact ⟨{ Result := .Warn }, rfl, Or.inr rfl⟩

theorem spec_C9_lints_no_malfunction_witness :
    IsExtInCert subCACertCritical NameConstOID = true
    ∧ ∃ r : ResultStruct,
        subCANameConstraintsRunTest subCACertCritical = some (r, none) ∧
          (r.Result = .Pass ∨ r.Result = .Warn) :=
  ⟨by decide,
   spec_C9_lints_no_malfunction.2.2.2.2.2 subCACertCritical (by decide)⟩

/-- C10: `SubCANameConstraintsNotCritical` applies to a certificate exactly
when it is a subordinate CA certificate containing the nameConstraints
extension; for every certificate it applies to, `RunTest` returns severity
Pass if that extension is critical and severity Warn if it is not. -/
theorem spec_C10_subCANameConstraints (cert : Certificate) :
    (subCANameConstraintsCheckApplies cert = true ↔
      (cert.IsSubCACert = true ∧
        ∃ e ∈ cert.Extensions, e.Id = NameConstOID))
    ∧ (subCANameConstraintsCheckApplies cert = true →
      ∃ e, GetExtFromCert cert NameConstOID = some e ∧
        subCANameConstraintsRunTest cert =
          some ({ Result := if e.Critical then .Pass else .Warn }, none)) := by
  constructor
  · unfold subCANameConstraintsCheckApplies IsExtInCert
    rw [Bool.and_eq_true, List.any_eq_true]
    simp
  · intro happ
    unfold subCANameConstraintsCheckApplies at happ
    rw [Bool.and_eq_true] at happ
    have hext := happ.2
    unfold IsExtInCert at hext
    rw [List.any_eq_true] at hext
    obtain ⟨e, hmem, he⟩ := hext
    have hfind : ∃ ef, GetExtFromCert cert NameConstOID = some ef := by
      rw [← Option.isSome_iff_exists]
      unfold GetExtFromCert
      rw [List.find?_isSome]
      exact ⟨e, hmem, he⟩
    obtain ⟨ef, hef⟩ := hfind
    refine ⟨ef, hef, ?_⟩
    unfold subCANameConstraintsRunTest
    rw [hef, Option.map_some']
    by_cases hc : ef.Critical = true
    · rw [if_pos hc, if_pos hc]
    · rw [if_neg hc, if_neg hc]

theorem spec_C10_subCANameConstraints_witness :
    subCANameConstraintsCheckApplies subCACertCritical = true
    ∧ ∃ e, GetExtFromCert subCACertCritical NameConstOID = some e ∧
        subCANameConstraintsRunTest subCACertCritical =
          some ({ Result := if e.Critical then .Pass else .Warn }, none) :=
  ⟨by decide,
   (spec_C10_subCANameConstraints subCACertCritical).2 (by decide)⟩
